import Mathlib

/-!
Verification of the memory storage, relevance scoring and context
optimization core of the smart-memory engine.

Modelling conventions for the shallow embedding of the Rust source:

- Rust `usize` token counts are modelled as `Nat` (overflow is not modelled).
- Rust `chrono::DateTime<Utc>` timestamps are modelled as `Int` seconds.
- Rust `f64` values are modelled by `FP`: NaN, the two infinities, and
  finite values idealized as exact rationals (IEEE rounding of finite
  arithmetic is not modelled; float literals such as 0.7 are read as exact
  rationals).  `f64::ln` on positive finite arguments is abstracted as a
  rational-valued parameter `lnq`.
- Rust `HashMap` values are modelled as association lists together with a
  `lookupA` lookup function; `hmInsert` models `HashMap::insert`
  (replacing any previous binding of the key).
- `str::to_lowercase` and `str::split_whitespace` are modelled by
  structural recursion over the underlying character list; `String::len`
  is modelled by the character count (the byte and character counts agree
  on ASCII content).
- Fallible Rust functions returning `anyhow::Result` are modelled with
  `Except String`.
-/

namespace SmartMemory

/-- Model of `str::to_lowercase`, mapping every character to lower case. -/
def strToLower (s : String) : String := ⟨s.data.map Char.toLower⟩

/-- Helper for `splitWhitespace`: walks the character list keeping the
current in-progress word reversed in `cur`. -/
def splitWSAux (cur : List Char) : List Char → List String
  | [] => if cur = [] then [] else [⟨cur.reverse⟩]
  | c :: rest =>
    if c.isWhitespace then
      if cur = [] then splitWSAux [] rest
      else ⟨cur.reverse⟩ :: splitWSAux [] rest
    else splitWSAux (c :: cur) rest

/-- Model of `str::split_whitespace`: maximal runs of non-whitespace
characters, with empty segments dropped. -/
def splitWhitespace (s : String) : List String := splitWSAux [] s.data

/-- Model of `HashMap::get` on an association list. -/
def lookupA {β : Type} (k : String) : List (String × β) → Option β
  | [] => none
  | (k2, v) :: rest => if k = k2 then some v else lookupA k rest

/-- Model of `HashMap::insert`: the new binding replaces any previous
binding of the same key. -/
def hmInsert {β : Type} (m : List (String × β)) (k : String) (v : β) :
    List (String × β) :=
  (k, v) :: m.filter (fun kv => kv.1 ≠ k)

theorem lookupA_hmInsert_self {β : Type} (m : List (String × β)) (k : String) (v : β) :
    lookupA k (hmInsert m k v) = some v := by
  simp [lookupA, hmInsert]

/-- Model of an IEEE-754 double value: NaN, infinities (the `Bool` is true
for the positive infinity) and finite values as exact rationals. -/
inductive FP where
  | nan : FP
  | inf : Bool → FP
  | fin : ℚ → FP
deriving DecidableEq

/-- IEEE addition on the value model (finite arithmetic idealized exact). -/
def FP.add : FP → FP → FP
  | .nan, _ => .nan
  | _, .nan => .nan
  | .inf s, .inf t => if s = t then .inf s else .nan
  | .inf s, .fin _ => .inf s
  | .fin _, .inf t => .inf t
  | .fin a, .fin b => .fin (a + b)

/-- IEEE multiplication on the value model. -/
def FP.mul : FP → FP → FP
  | .nan, _ => .nan
  | _, .nan => .nan
  | .inf s, .inf t => .inf (s = t)
  | .inf s, .fin b => if b = 0 then .nan else .inf (s = decide (0 < b))
  | .fin a, .inf t => if a = 0 then .nan else .inf (decide (0 < a) = t)
  | .fin a, .fin b => .fin (a * b)

/-- IEEE division on the value model (the sign of zero is not modelled; a
finite nonzero value divided by zero gives the infinity carrying the sign
of the numerator). -/
def FP.div : FP → FP → FP
  | .nan, _ => .nan
  | _, .nan => .nan
  | .inf _, .inf _ => .nan
  | .inf s, .fin b => if b = 0 then .inf s else .inf (s = decide (0 < b))
  | .fin _, .inf _ => .fin 0
  | .fin a, .fin b =>
    if b = 0 then (if a = 0 then .nan else .inf (decide (0 < a))) else .fin (a / b)

/-- Strict comparison on the value model; NaN compares false both ways,
matching IEEE `<`. -/
def FP.ltB : FP → FP → Bool
  | .nan, _ => false
  | _, .nan => false
  | .fin a, .fin b => decide (a < b)
  | .fin _, .inf t => t
  | .inf s, .fin _ => !s
  | .inf s, .inf t => !s && t

/-- Model of Rust `f64::max`: if one argument is NaN the other is
returned, otherwise the larger argument. -/
def FP.maxR (x y : FP) : FP :=
  match x, y with
  | .nan, b => b
  | a, .nan => a
  | a, b => if FP.ltB a b then b else a

/-- Model of Rust `f64::min`: if one argument is NaN the other is
returned, otherwise the smaller argument. -/
def FP.minR (x y : FP) : FP :=
  match x, y with
  | .nan, b => b
  | a, .nan => a
  | a, b => if FP.ltB b a then b else a

/-- Model of `f64::ln` given the abstract logarithm `lnq` on positive
rationals. -/
def FP.ln (lnq : ℚ → ℚ) : FP → FP
  | .nan => .nan
  | .inf s => if s then .inf true else .nan
  | .fin a => if a = 0 then .inf false else if a < 0 then .nan else .fin (lnq a)

/-- Model of `TokenizerType` (src/core/src/storage/tokenizer.rs). -/
inductive TokenizerType where
  | Simple : TokenizerType
  | Gpt2 : TokenizerType
  | Cl100k : TokenizerType
deriving DecidableEq

/-- Model of `Tokenizer`: the optional Hugging Face tokenizer is
abstracted as an encode function returning the token id list of a
successful encode, `none` modelling an encode failure. -/
structure Tokenizer where
  tokenizer_type : TokenizerType
  hf_tokenizer : Option (String → Option (List Nat))

/-- Model of `Tokenizer::count_tokens`.  The fallback approximation
`(text.len() as f32 * 0.25) as usize` truncates toward zero, and scaling
by 0.25 is exact in binary floating point, so for lengths below 2^24 the
fallback equals the floor `text.length / 4`. -/
def Tokenizer.count_tokens (t : Tokenizer) (text : String) : Nat :=
  match t.tokenizer_type with
  | .Simple => (splitWhitespace text).length
  | .Gpt2 | .Cl100k =>
    match t.hf_tokenizer with
    | some encode =>
      match encode text with
      | some ids => ids.length
      | none => Nat.max (text.length / 4) 1
    | none => Nat.max (text.length / 4) 1

/-- Model of the `Memory` entity (src/core/src/storage/memory.rs).
Metadata is an association list standing for the `HashMap`. -/
structure Memory where
  id : String
  content : String
  content_type : String
  category : Option String
  mode : Option String
  metadata : List (String × String)
  token_count : Nat
  created_at : Int
  last_accessed : Int
deriving DecidableEq

/-- Model of `Memory::new`.  The randomly minted `MemoryId` and the
`Utc::now()` instant are supplied explicitly as `id` and `now`; the
source computes `now` once and stamps both timestamps from it. -/
def Memory.new (content content_type : String) (category mode : Option String)
    (metadata : List (String × String)) (tokenizer : Tokenizer)
    (id : String) (now : Int) : Memory :=
  { id := id
    content := content
    content_type := content_type
    category := category
    mode := mode
    metadata := metadata
    token_count := tokenizer.count_tokens content
    created_at := now
    last_accessed := now }

/-- Model of the `MemoryRepository` trait over an abstract repository
state `σ`; `touch` receives the `Utc::now()` instant explicitly. -/
structure RepoImpl (σ : Type) where
  store : σ → Memory → Except String σ
  retrieve : σ → String → Except String (Option Memory)
  touch : σ → String → Int → Except String σ
  getAllIds : σ → Except String (List String)
  totalTokens : σ → Except String Nat

/-- Mutable state of a `MemoryStore`: the repository state and the
in-process cache map. -/
structure StoreState (σ : Type) where
  repo : σ
  cache : List (String × Memory)
deriving DecidableEq

/-- Model of `MemoryStore::store`: build the memory, write it to the
repository, and only on success insert it into the cache.  The pair
carries the result together with the post state. -/
def MemoryStore.store {σ : Type} (R : RepoImpl σ) (tokenizer : Tokenizer)
    (st : StoreState σ) (content content_type : String)
    (category mode : Option String) (metadata : List (String × String))
    (id : String) (now : Int) : Except String Memory × StoreState σ :=
  let memory := Memory.new content content_type category mode metadata tokenizer id now
  match R.store st.repo memory with
  | .error e => (.error e, st)
  | .ok repo2 =>
    (.ok memory, { repo := repo2, cache := hmInsert st.cache memory.id memory })

/-- Model of `MemoryStore::retrieve`: on a cache hit the cached entry is
touched and the repository is touched write-through; on a cache miss the
repository is read and a found memory is inserted into the cache as
returned by the repository, without touching. -/
def MemoryStore.retrieve {σ : Type} (R : RepoImpl σ) (st : StoreState σ)
    (id : String) (now : Int) : Except String (Option Memory) × StoreState σ :=
  match lookupA id st.cache with
  | some memory =>
    let touched := { memory with last_accessed := now }
    let cache2 := hmInsert st.cache id touched
    match R.touch st.repo id now with
    | .error e => (.error e, { st with cache := cache2 })
    | .ok repo2 => (.ok (some touched), { repo := repo2, cache := cache2 })
  | none =>
    match R.retrieve st.repo id with
    | .error e => (.error e, st)
    | .ok (some memory) =>
      (.ok (some memory), { st with cache := hmInsert st.cache memory.id memory })
    | .ok none => (.ok none, st)

/-- Model of `InMemoryRepository`: a guarded map from id to memory. -/
def inMemoryRepository : RepoImpl (List (String × Memory)) :=
  { store := fun s m => .ok (hmInsert s m.id m)
    retrieve := fun s id => .ok (lookupA id s)
    touch := fun s id now =>
      .ok (s.map fun kv =>
        if kv.1 = id then (kv.1, { kv.2 with last_accessed := now }) else kv)
    getAllIds := fun s => .ok (s.map fun kv => kv.1)
    totalTokens := fun s => .ok (s.map fun kv => kv.2.token_count).sum }

/-- Model of `RelevanceScore`: a wrapped float value. -/
structure RelevanceScore where
  val : FP
deriving DecidableEq

/-- Model of `RelevanceScore::new`: `score.max(0.0).min(1.0)` with Rust
float max and min semantics. -/
def RelevanceScore.new (score : FP) : RelevanceScore :=
  ⟨(score.maxR (FP.fin 0)).minR (FP.fin 1)⟩

/-- Model of `ScoredMemory`. -/
structure ScoredMemory where
  memory : Memory
  score : RelevanceScore
deriving DecidableEq

/-- Model of `TfIdfScorer`: the hardcoded mode weight tables. -/
structure TfIdfScorer where
  mode_weights : List (String × List (String × ℚ))

/-- The weight table inserted for the code mode by `TfIdfScorer::new`. -/
def codeWeights : List (String × ℚ) :=
  [("language", 8/10), ("file", 6/10), ("project", 5/10), ("source", 3/10)]

/-- The weight table inserted for the architect mode by `TfIdfScorer::new`. -/
def architectWeights : List (String × ℚ) :=
  [("project", 8/10), ("design", 7/10), ("architecture", 7/10), ("source", 3/10)]

/-- The weight table inserted for the debug mode by `TfIdfScorer::new`. -/
def debugWeights : List (String × ℚ) :=
  [("error", 9/10), ("language", 7/10), ("file", 6/10), ("project", 5/10)]

/-- Model of `TfIdfScorer::new`. -/
def TfIdfScorer.new : TfIdfScorer :=
  ⟨[("code", codeWeights), ("architect", architectWeights), ("debug", debugWeights)]⟩

/-- The metadata score computed inside `TfIdfScorer::calculate_tf_idf`:
the mode weight table (falling back to the code table, then to the empty
table), the sum over the metadata keys of the looked-up weight with
default 0.1, divided by the table size clamped to at least 1.  The float
sum is idealized as an exact rational sum. -/
def metadataScore (scorer : TfIdfScorer) (mode : String)
    (metadata : List (String × String)) : ℚ :=
  let defaultWeights : List (String × ℚ) := []
  let codeW := (lookupA "code" scorer.mode_weights).getD defaultWeights
  let modeW := (lookupA mode scorer.mode_weights).getD codeW
  ((metadata.map fun kv => (lookupA kv.1 modeW).getD (1/10)).sum) /
    ((Nat.max modeW.length 1 : Nat) : ℚ)

/-- The recency score computed by `calculate_tf_idf` when no query is
present: `1.0 / (1.0 + age / 86400.0)` where age is the signed number of
seconds since the last access. -/
def recencyScore (now last_accessed : Int) : FP :=
  FP.div (FP.fin 1)
    (FP.add (FP.fin 1) (FP.div (FP.fin ((now - last_accessed : Int) : ℚ)) (FP.fin 86400)))

/-- Model of `TfIdfScorer::build_document_frequencies`, represented by
its lookup function: the number of memories whose distinct lowercase
whitespace terms contain the given term (0 standing for an absent key). -/
def buildDocumentFrequencies (memories : List Memory) : String → Nat :=
  fun term =>
    (memories.filter fun m =>
      term ∈ (splitWhitespace (strToLower m.content)).dedup).length

/-- Model of `TfIdfScorer::calculate_tf_idf`.  The query term `HashSet`
is modelled by `dedup`; the per-term content counts of the source
`term_frequencies` map are modelled by `List.count`; `lnq` abstracts
`f64::ln` and `now` the `Utc::now()` instant of the recency branch. -/
def calculateTfIdf (lnq : ℚ → ℚ) (now : Int) (scorer : TfIdfScorer)
    (memory : Memory) (mode : String) (query : Option String)
    (document_frequencies : String → Nat) (total_documents : Nat) :
    RelevanceScore :=
  let metadata_score : ℚ := metadataScore scorer mode memory.metadata
  let content_score : FP :=
    match query with
    | some q =>
      let query_terms := (splitWhitespace (strToLower q)).dedup
      let content_terms := splitWhitespace (strToLower memory.content)
      let tf_idf_sum :=
        query_terms.foldl
          (fun acc term =>
            let tf := FP.div (FP.fin (content_terms.count term : ℚ))
              (FP.fin ((Nat.max content_terms.length 1 : Nat) : ℚ))
            let dfn := document_frequencies term
            let df : ℚ := ((if dfn = 0 then 1 else dfn : Nat) : ℚ)
            let idf := FP.ln lnq (FP.div (FP.fin (total_documents : ℚ)) (FP.fin df))
            FP.add acc (FP.mul tf idf))
          (FP.fin 0)
      FP.div tf_idf_sum (FP.fin ((Nat.max query_terms.length 1 : Nat) : ℚ))
    | none => recencyScore now memory.last_accessed
  RelevanceScore.new
    (FP.add (FP.mul (FP.fin (7/10)) content_score)
      (FP.mul (FP.fin (3/10)) (FP.fin metadata_score)))

/-- Model of `TfIdfScorer::score_memories`: score every memory against
the corpus document frequencies and sort by score descending with the
stable sort; the NaN-incomparable case of `partial_cmp` collapses to
equality, matching `unwrap_or(Equal)`. -/
def scoreMemories (lnq : ℚ → ℚ) (now : Int) (scorer : TfIdfScorer)
    (memories : List Memory) (mode : String) (query : Option String) :
    List ScoredMemory :=
  let document_frequencies := buildDocumentFrequencies memories
  let total_documents := memories.length
  let scored := memories.map fun memory =>
    ScoredMemory.mk memory
      (calculateTfIdf lnq now scorer memory mode query document_frequencies total_documents)
  scored.mergeSort fun a b => !(FP.ltB a.score.val b.score.val)

/-- Helper loop of `TokenBudgetOptimizer::optimize`: `acc` is the
`optimized_memories` vector and `total` the running `total_tokens`. -/
def optimizeAux (max_tokens : Nat) (threshold : FP) :
    List ScoredMemory → List ScoredMemory → Nat → List ScoredMemory
  | [], acc, _ => acc
  | sm :: rest, acc, total =>
    if FP.ltB sm.score.val threshold then
      optimizeAux max_tokens threshold rest acc total
    else
      let new_total := total + sm.memory.token_count
      if new_total > max_tokens ∧ acc ≠ [] then acc
      else optimizeAux max_tokens threshold rest (acc ++ [sm]) new_total

/-- Model of `TokenBudgetOptimizer::optimize` (the source always returns
`Ok`, so the `Result` wrapper is dropped). -/
def TokenBudgetOptimizer.optimize (scored_memories : List ScoredMemory)
    (max_tokens : Nat) (relevance_threshold : RelevanceScore) : List ScoredMemory :=
  optimizeAux max_tokens relevance_threshold.val scored_memories [] 0

/-- Model of `Priority` (src/core/src/storage/memory_bank_config.rs). -/
inductive Priority where
  | Low : Priority
  | Medium : Priority
  | High : Priority
  | Critical : Priority
deriving DecidableEq

/-- Model of `CategoryConfig`. -/
structure CategoryConfig where
  max_tokens : Nat
  priority : Priority
deriving DecidableEq

/-- Model of `UpdateTriggersConfig`. -/
structure UpdateTriggersConfig where
  auto_update : Bool
  umb_command : Bool
deriving DecidableEq

/-- Model of `TokenBudgetConfig`. -/
structure TokenBudgetConfig where
  total : Nat
  per_category : Bool
deriving DecidableEq

/-- Model of `RelevanceConfig` (the float threshold as exact rational). -/
structure RelevanceConfig where
  threshold : ℚ
  boost_recent : Bool
deriving DecidableEq

/-- Model of `MemoryBankConfig`. -/
structure MemoryBankConfig where
  categories : List (String × CategoryConfig)
  update_triggers : UpdateTriggersConfig
  token_budget : TokenBudgetConfig
  relevance : RelevanceConfig
deriving DecidableEq

/-- Model of `MemoryBankConfig::default`. -/
def MemoryBankConfig.default : MemoryBankConfig :=
  { categories :=
      [("context", ⟨10000, .High⟩), ("decision", ⟨5000, .Medium⟩),
       ("progress", ⟨8000, .High⟩), ("product", ⟨10000, .Medium⟩),
       ("pattern", ⟨5000, .Low⟩)]
    update_triggers := ⟨true, true⟩
    token_budget := ⟨50000, true⟩
    relevance := ⟨7/10, true⟩ }

/-- Model of `MemoryBankConfig::from_file`.  File system access is
abstracted: `readFile` is the combined outcome of `File::open` plus
`read_to_string`, and `parse` abstracts `serde_json::from_str`.  Every
failure is propagated to the caller with `?`. -/
def MemoryBankConfig.from_file (readFile : Except String String)
    (parse : String → Except String MemoryBankConfig) :
    Except String MemoryBankConfig :=
  match readFile with
  | .error e => .error e
  | .ok contents =>
    match parse contents with
    | .error e => .error e
    | .ok config => .ok config

/-- Model of the caller of `from_file`
(src/core/src/service/memory_service.rs, `with_config_path`): a load
failure is recovered by substituting the default configuration. -/
def loadMemoryBankConfig (readFile : Except String String)
    (parse : String → Except String MemoryBankConfig) : MemoryBankConfig :=
  match MemoryBankConfig.from_file readFile parse with
  | .ok config => config
  | .error _ => MemoryBankConfig.default

/-- Sum of the token counts of a list of scored memories. -/
def sumTokens (l : List ScoredMemory) : Nat :=
  (l.map fun sm => sm.memory.token_count).sum

theorem sumTokens_append_singleton (l : List ScoredMemory) (sm : ScoredMemory) :
    sumTokens (l ++ [sm]) = sumTokens l + sm.memory.token_count := by
  simp [sumTokens]

/-- Invariant of the optimizer loop: the budget property of the
accumulator is preserved while the running total tracks its token sum. -/
theorem optimizeAux_budget (max_tokens : Nat) (threshold : FP) :
    ∀ (rest acc : List ScoredMemory) (total : Nat),
      total = sumTokens acc →
      (sumTokens acc ≤ max_tokens ∨
        ∃ sm, acc = [sm] ∧ max_tokens < sm.memory.token_count) →
      (sumTokens (optimizeAux max_tokens threshold rest acc total) ≤ max_tokens ∨
        ∃ sm, optimizeAux max_tokens threshold rest acc total = [sm] ∧
          max_tokens < sm.memory.token_count) := by
  intro rest
  induction rest with
  | nil => intro acc total _ hinv; simpa [optimizeAux] using hinv
  | cons sm rest ih =>
    intro acc total htotal hinv
    by_cases hskip : FP.ltB sm.score.val threshold
    · simpa [optimizeAux, hskip] using ih acc total htotal hinv
    · by_cases hstop : total + sm.memory.token_count > max_tokens ∧ acc ≠ []
      · simpa [optimizeAux, hskip, hstop] using hinv
      · have hrec := ih (acc ++ [sm]) (total + sm.memory.token_count)
          (by rw [sumTokens_append_singleton, htotal])
          (by
            rcases Decidable.not_and_iff_or_not.mp hstop with hle | hempty
            · left
              rw [sumTokens_append_singleton, ← htotal]
              omega
            · have hacc : acc = [] := by
                by_contra hne
                exact hempty hne
              subst hacc
              have htz : total = 0 := by simpa [sumTokens] using htotal
              by_cases hfit : total + sm.memory.token_count ≤ max_tokens
              · left
                rw [sumTokens_append_singleton, ← htotal]
                omega
              · right
                exact ⟨sm, by simp, by omega⟩)
        simpa [optimizeAux, hskip, hstop] using hrec

/-- C1: for every input list of scored memories, every budget and every
threshold, the token counts of the memories returned by
`TokenBudgetOptimizer::optimize` sum to at most `max_tokens`, except in
exactly one case: the output is a single memory whose own token count
exceeds `max_tokens` (the documented first-memory exception, with no
truncation). -/
theorem optimize_budget_property (scored_memories : List ScoredMemory)
    (max_tokens : Nat) (relevance_threshold : RelevanceScore) :
    sumTokens (TokenBudgetOptimizer.optimize scored_memories max_tokens relevance_threshold)
        ≤ max_tokens ∨
      ∃ sm, TokenBudgetOptimizer.optimize scored_memories max_tokens relevance_threshold
          = [sm] ∧ max_tokens < sm.memory.token_count :=
  optimizeAux_budget max_tokens relevance_threshold.val scored_memories [] 0
    (by simp [sumTokens]) (Or.inl (by simp [sumTokens]))

/-- Every memory in the optimizer loop output either came from the
accumulator or passed the strict-threshold test. -/
theorem optimizeAux_mem_cases (max_tokens : Nat) (threshold : FP) :
    ∀ (rest acc : List ScoredMemory) (total : Nat) (sm : ScoredMemory),
      sm ∈ optimizeAux max_tokens threshold rest acc total →
      sm ∈ acc ∨ FP.ltB sm.score.val threshold = false := by
  intro rest
  induction rest with
  | nil => intro acc total sm hmem; exact Or.inl (by simpa [optimizeAux] using hmem)
  | cons m rest ih =>
    intro acc total sm hmem
    by_cases hskip : FP.ltB m.score.val threshold
    · exact ih acc total sm (by simpa [optimizeAux, hskip] using hmem)
    · by_cases hstop : total + m.memory.token_count > max_tokens ∧ acc ≠ []
      · exact Or.inl (by simpa [optimizeAux, hskip, hstop] using hmem)
      · have hmem2 : sm ∈ optimizeAux max_tokens threshold rest (acc ++ [m])
            (total + m.memory.token_count) := by
          simpa [optimizeAux, hskip, hstop] using hmem
        rcases ih (acc ++ [m]) (total + m.memory.token_count) sm hmem2 with hacc | hpass
        · rcases List.mem_append.mp hacc with h | h
          · exact Or.inl h
          · have : sm = m := by simpa using h
            subst this
            exact Or.inr (by simpa using hskip)
        · exact Or.inr hpass

/-- C6: `TokenBudgetOptimizer::optimize` never includes a memory whose
score is strictly less than `relevance_threshold`; a score exactly equal
to the threshold is not excluded by this rule, since the skip test is the
strict float comparison. -/
theorem optimize_threshold_exclusion (scored_memories : List ScoredMemory)
    (max_tokens : Nat) (relevance_threshold : RelevanceScore) (sm : ScoredMemory)
    (hmem : sm ∈ TokenBudgetOptimizer.optimize scored_memories max_tokens relevance_threshold) :
    FP.ltB sm.score.val relevance_threshold.val = false := by
  rcases optimizeAux_mem_cases max_tokens relevance_threshold.val scored_memories [] 0 sm
      hmem with h | h
  · simp at h
  · exact h

/-- Sample memory used by concrete witnesses. -/
def sampleMemory : Memory :=
  { id := "mem_1"
    content := "alpha beta"
    content_type := "text/plain"
    category := none
    mode := none
    metadata := []
    token_count := 2
    created_at := 0
    last_accessed := 0 }

/-- Sample scored memory with an integral score, so that the kernel can
evaluate the rational comparisons. -/
def sampleScoredMemory : ScoredMemory := ⟨sampleMemory, ⟨FP.fin 1⟩⟩

/-- Witness for C6: running the optimizer on a concrete singleton input
whose score 1 passes the threshold 0, the returned memory satisfies the
non-strict bound. -/
theorem optimize_threshold_exclusion_witness :
    FP.ltB sampleScoredMemory.score.val (RelevanceScore.mk (FP.fin 0)).val = false :=
  optimize_threshold_exclusion [sampleScoredMemory] 100 ⟨FP.fin 0⟩ sampleScoredMemory
    (by decide)

/-- C3 counterexample: on a seven character text with the model
unavailable, `count_tokens` returns `(7 * 0.25) as usize = 1`, while the
claimed formula `max(1, round(char_length * 0.25))` gives 2: the code
truncates, it does not round. -/
theorem count_tokens_round_counterexample :
    Tokenizer.count_tokens ⟨TokenizerType.Gpt2, none⟩ "abcdefg" = 1 ∧
    "abcdefg".length = 7 ∧
    max 1 (round ((7 : ℚ) * (1/4))) = 2 ∧
    (1 : Int) ≠ 2 := by
  refine ⟨by decide, by decide, ?_, by decide⟩
  have h : round ((7 : ℚ) * (1/4)) = 2 := by
    rw [round_eq]
    norm_num [Int.floor_eq_iff]
  rw [h]
  decide

/-- C3 amended: for every text, when a model-backed tokenizer has no
underlying model or its encode call fails, `count_tokens` returns the
length heuristic `max(1, floor(char_length * 0.25))`, that is
`max 1 (length / 4)`, rather than failing. -/
theorem count_tokens_fallback_heuristic (t : Tokenizer) (text : String)
    (htype : t.tokenizer_type = TokenizerType.Gpt2 ∨
      t.tokenizer_type = TokenizerType.Cl100k)
    (hfail : t.hf_tokenizer = none ∨
      ∃ encode, t.hf_tokenizer = some encode ∧ encode text = none) :
    t.count_tokens text = max 1 (text.length / 4) := by
  have hmax : Nat.max (text.length / 4) 1 = max 1 (text.length / 4) :=
    Nat.max_comm _ _
  rcases hfail with hnone | ⟨encode, hsome, hfailed⟩ <;>
    rcases htype with h | h
  · simp [Tokenizer.count_tokens, h, hnone, hmax]
  · simp [Tokenizer.count_tokens, h, hnone, hmax]
  · simp [Tokenizer.count_tokens, h, hsome, hfailed, hmax]
  · simp [Tokenizer.count_tokens, h, hsome, hfailed, hmax]

/-- Witness for C3 amended: a GPT-2 tokenizer without a model on a seven
character text yields `max 1 (7 / 4) = 1`. -/
theorem count_tokens_fallback_heuristic_witness :
    Tokenizer.count_tokens ⟨TokenizerType.Gpt2, none⟩ "abcdefg" =
      max 1 ("abcdefg".length / 4) :=
  count_tokens_fallback_heuristic ⟨TokenizerType.Gpt2, none⟩ "abcdefg"
    (Or.inl rfl) (Or.inl rfl)

/-- C8 counterexample: `from_file` on a missing file propagates the open
error to its caller; it does not return the default configuration. -/
theorem from_file_propagates_error_counterexample :
    MemoryBankConfig.from_file (.error "No such file")
        (fun _ => .error "parse error") = .error "No such file" ∧
    (Except.error "No such file" : Except String MemoryBankConfig) ≠
      .ok MemoryBankConfig.default := by
  exact ⟨rfl, by simp⟩

/-- C8 amended: `from_file` propagates a missing-file or malformed-file
failure to its caller as an error; the recovery to the default
configuration happens in the caller of `from_file` (the service
constructor), which substitutes the default, so the failure does not
escape the configuration loading path. -/
theorem from_file_error_recovered_by_caller (readFile : Except String String)
    (parse : String → Except String MemoryBankConfig) (e : String) :
    (readFile = .error e →
      MemoryBankConfig.from_file readFile parse = .error e ∧
      loadMemoryBankConfig readFile parse = MemoryBankConfig.default) ∧
    (∀ s, readFile = .ok s → parse s = .error e →
      MemoryBankConfig.from_file readFile parse = .error e ∧
      loadMemoryBankConfig readFile parse = MemoryBankConfig.default) := by
  constructor
  · intro h
    subst h
    exact ⟨rfl, rfl⟩
  · intro s hok hparse
    subst hok
    simp [MemoryBankConfig.from_file, loadMemoryBankConfig, hparse]

/-- Witness for C8 amended: on a concrete missing file, `from_file`
errors and the caller recovers the default configuration. -/
theorem from_file_error_recovered_by_caller_witness :
    MemoryBankConfig.from_file (.error "No such file")
        (fun _ => .error "parse error") = .error "No such file" ∧
    loadMemoryBankConfig (.error "No such file")
        (fun _ => .error "parse error") = MemoryBankConfig.default :=
  (from_file_error_recovered_by_caller (.error "No such file")
    (fun _ => .error "parse error") "No such file").1 rfl

/-- A memory sitting in the repository with an old access timestamp,
used to exhibit the cache-miss behavior of `retrieve`. -/
def staleMemory : Memory :=
  { id := "mem_a"
    content := "hello"
    content_type := "text/plain"
    category := none
    mode := none
    metadata := []
    token_count := 1
    created_at := 5
    last_accessed := 5 }

/-- Store state whose repository holds `staleMemory` while the cache is
empty, so a retrieve must fall through to the repository. -/
def staleState : StoreState (List (String × Memory)) :=
  { repo := [("mem_a", staleMemory)], cache := [] }

/-- C2 counterexample: a successful `retrieve` that misses the cache
returns the memory with its old `last_accessed` (5, not the current
instant 100) and leaves the repository entry untouched; the cache entry
inserted on the miss also keeps the stale timestamp.  The cache-miss path
of `retrieve` performs no touch at all. -/
theorem retrieve_cache_miss_no_refresh_counterexample :
    (MemoryStore.retrieve inMemoryRepository staleState "mem_a" 100).1 =
      .ok (some staleMemory) ∧
    (MemoryStore.retrieve inMemoryRepository staleState "mem_a" 100).2.repo =
      [("mem_a", staleMemory)] ∧
    (MemoryStore.retrieve inMemoryRepository staleState "mem_a" 100).2.cache =
      [("mem_a", staleMemory)] ∧
    staleMemory.last_accessed = 5 ∧
    (5 : Int) ≠ 100 := by
  refine ⟨rfl, rfl, rfl, rfl, by decide⟩

/-- C2 amended: a successful `retrieve` that hits the cache refreshes
`last_accessed` to the current instant in both the cache entry and the
Repository (write-through) and changes no other field of the memory; a
`retrieve` that misses the cache and finds the memory in the Repository
returns it and inserts it into the cache unchanged, refreshing
`last_accessed` nowhere. -/
theorem retrieve_touch_behavior {σ : Type} (R : RepoImpl σ) (st : StoreState σ)
    (id : String) (now : Int) :
    (∀ m repo2, lookupA id st.cache = some m → R.touch st.repo id now = .ok repo2 →
      MemoryStore.retrieve R st id now =
        (.ok (some { m with last_accessed := now }),
         { repo := repo2,
           cache := hmInsert st.cache id { m with last_accessed := now } })) ∧
    (∀ m, lookupA id st.cache = none → R.retrieve st.repo id = .ok (some m) →
      MemoryStore.retrieve R st id now =
        (.ok (some m), { st with cache := hmInsert st.cache m.id m })) := by
  constructor
  · intro m repo2 hhit htouch
    simp [MemoryStore.retrieve, hhit, htouch]
  · intro m hmiss hfound
    simp [MemoryStore.retrieve, hmiss, hfound]

/-- Witness for C2 amended: a concrete cache hit against the in-memory
repository refreshes the timestamp in both the cache and the repository. -/
theorem retrieve_touch_behavior_witness :
    MemoryStore.retrieve inMemoryRepository
        ⟨[("mem_a", staleMemory)], [("mem_a", staleMemory)]⟩ "mem_a" 100 =
      (.ok (some { staleMemory with last_accessed := 100 }),
       { repo := [("mem_a", { staleMemory with last_accessed := 100 })],
         cache := hmInsert [("mem_a", staleMemory)] "mem_a"
           { staleMemory with last_accessed := 100 } }) :=
  (retrieve_touch_behavior inMemoryRepository
      ⟨[("mem_a", staleMemory)], [("mem_a", staleMemory)]⟩ "mem_a" 100).1
    staleMemory [("mem_a", { staleMemory with last_accessed := 100 })]
    rfl rfl

/-- The simple whitespace tokenizer used by concrete witnesses. -/
def simpleTokenizer : Tokenizer := ⟨TokenizerType.Simple, none⟩

/-- C7: a memory created by `MemoryStore::store` and then retrieved by
`MemoryStore::retrieve` with its id, with no intervening operation, comes
back with the content passed to `store` and with the token count the
Tokenizer computed at creation time; retrieval recomputes nothing. -/
theorem store_retrieve_round_trip {σ : Type} (R : RepoImpl σ)
    (tokenizer : Tokenizer) (st : StoreState σ) (content content_type : String)
    (category mode : Option String) (metadata : List (String × String))
    (id : String) (now0 now1 : Int) (m m2 : Memory) (st1 : StoreState σ)
    (hstore : MemoryStore.store R tokenizer st content content_type category mode
      metadata id now0 = (.ok m, st1))
    (hret : (MemoryStore.retrieve R st1 m.id now1).1 = .ok (some m2)) :
    m2.content = content ∧
    m2.token_count = tokenizer.count_tokens content := by
  have hmem : m = Memory.new content content_type category mode metadata tokenizer id now0 ∧
      st1.cache = hmInsert st.cache m.id m := by
    rcases hrs : R.store st.repo
        (Memory.new content content_type category mode metadata tokenizer id now0) with e | repo2
    · rw [MemoryStore.store, hrs] at hstore
      simp at hstore
    · rw [MemoryStore.store, hrs] at hstore
      have h1 := congrArg Prod.fst hstore
      have h2 := congrArg Prod.snd hstore
      simp at h1 h2
      constructor
      · exact h1.symm
      · rw [← h2]
        rw [h1]
  rcases hmem with ⟨hm, hcache⟩
  have hhit : lookupA m.id st1.cache = some m := by
    rw [hcache]
    exact lookupA_hmInsert_self _ _ _
  rcases htouch : R.touch st1.repo m.id now1 with e | repo2
  · rw [MemoryStore.retrieve, hhit] at hret
    simp [htouch] at hret
  · rw [MemoryStore.retrieve, hhit] at hret
    simp [htouch] at hret
    have hm2 : m2 = { m with last_accessed := now1 } := hret.symm
    subst hm2
    rw [hm]
    exact ⟨rfl, rfl⟩

/-- The memory minted by the concrete witness run of `store`. -/
def storedSample : Memory :=
  Memory.new "hello world" "text/plain" none none [] simpleTokenizer "mem_w" 10

/-- Witness for C7: a concrete store of "hello world" into an empty
in-memory store followed by a retrieve preserves content and token
count. -/
theorem store_retrieve_round_trip_witness :
    ({ storedSample with last_accessed := 11 } : Memory).content = "hello world" ∧
    ({ storedSample with last_accessed := 11 } : Memory).token_count =
      simpleTokenizer.count_tokens "hello world" :=
  store_retrieve_round_trip inMemoryRepository simpleTokenizer ⟨[], []⟩
    "hello world" "text/plain" none none [] "mem_w" 10 11 storedSample
    { storedSample with last_accessed := 11 }
    ⟨[("mem_w", storedSample)], [("mem_w", storedSample)]⟩ rfl rfl

/-- C9: if the Repository write inside `MemoryStore::store` fails, the
error is returned and the whole store state, in particular the cache, is
left unchanged: no entry for the newly minted id is inserted. -/
theorem store_error_leaves_cache_unchanged {σ : Type} (R : RepoImpl σ)
    (tokenizer : Tokenizer) (st : StoreState σ) (content content_type : String)
    (category mode : Option String) (metadata : List (String × String))
    (id : String) (now : Int) (e : String)
    (hfail : R.store st.repo
      (Memory.new content content_type category mode metadata tokenizer id now) =
      .error e) :
    MemoryStore.store R tokenizer st content content_type category mode metadata
      id now = (.error e, st) := by
  simp [MemoryStore.store, hfail]

/-- A repository whose write always fails, for the C9 witness. -/
def failingRepository : RepoImpl Unit :=
  { store := fun _ _ => .error "disk full"
    retrieve := fun _ _ => .ok none
    touch := fun s _ _ => .ok s
    getAllIds := fun _ => .ok []
    totalTokens := fun _ => .ok 0 }

/-- Witness for C9: against the always-failing repository, `store`
returns the storage error and the state, cache included, is unchanged. -/
theorem store_error_leaves_cache_unchanged_witness :
    MemoryStore.store failingRepository simpleTokenizer ⟨(), []⟩ "hello world"
      "text/plain" none none [] "mem_w" 10 = (.error "disk full", ⟨(), []⟩) :=
  store_error_leaves_cache_unchanged failingRepository simpleTokenizer ⟨(), []⟩
    "hello world" "text/plain" none none [] "mem_w" 10 "disk full" rfl

/-- C10: every memory produced by `Memory::new` has `created_at` equal to
`last_accessed` (both stamped from the same instant), hence so does every
memory returned by `MemoryStore::store`; consequently a just-created,
never-retrieved memory has maximal recency score 1 at its creation
instant. -/
theorem memory_new_timestamps_equal {σ : Type} (R : RepoImpl σ)
    (tokenizer : Tokenizer) (st : StoreState σ) (content content_type : String)
    (category mode : Option String) (metadata : List (String × String))
    (id : String) (now : Int) :
    (Memory.new content content_type category mode metadata tokenizer id now).created_at =
      (Memory.new content content_type category mode metadata tokenizer id now).last_accessed ∧
    (∀ m st1, MemoryStore.store R tokenizer st content content_type category mode
        metadata id now = (.ok m, st1) → m.created_at = m.last_accessed) ∧
    recencyScore now
      (Memory.new content content_type category mode metadata tokenizer id now).last_accessed =
      FP.fin 1 := by
  refine ⟨rfl, ?_, ?_⟩
  · intro m st1 hstore
    rcases hrs : R.store st.repo
        (Memory.new content content_type category mode metadata tokenizer id now) with e | repo2
    · rw [MemoryStore.store, hrs] at hstore
      simp at hstore
    · rw [MemoryStore.store, hrs] at hstore
      have h1 := congrArg Prod.fst hstore
      simp at h1
      rw [← h1]
      rfl
  · show recencyScore now now = FP.fin 1
    simp [recencyScore, FP.div, FP.add]

/-- Witness for C10: a concrete successful store returns a memory whose
two timestamps agree. -/
theorem memory_new_timestamps_equal_witness :
    storedSample.created_at = storedSample.last_accessed :=
  (memory_new_timestamps_equal inMemoryRepository simpleTokenizer ⟨[], []⟩
    "hello world" "text/plain" none none [] "mem_w" 10).2.1 storedSample
    ⟨[("mem_w", storedSample)], [("mem_w", storedSample)]⟩ rfl

/-- The clamp in `RelevanceScore::new` always produces a finite value in
the closed unit interval, whatever float value (NaN and infinities
included) the score computation produced. -/
theorem relevanceScore_new_fin_bounds (s : FP) :
    ∃ q : ℚ, (RelevanceScore.new s).val = FP.fin q ∧ 0 ≤ q ∧ q ≤ 1 := by
  rcases s with _ | sgn | q
  · exact ⟨0, by simp [RelevanceScore.new, FP.maxR, FP.minR, FP.ltB], le_refl 0, zero_le_one⟩
  · cases sgn
    · exact ⟨0, by simp [RelevanceScore.new, FP.maxR, FP.minR, FP.ltB], le_refl 0, zero_le_one⟩
    · exact ⟨1, by simp [RelevanceScore.new, FP.maxR, FP.minR, FP.ltB], zero_le_one, le_refl 1⟩
  · by_cases h0 : q < 0
    · refine ⟨0, ?_, le_refl 0, zero_le_one⟩
      simp [RelevanceScore.new, FP.maxR, FP.minR, FP.ltB, h0]
    · by_cases h1 : 1 < q
      · refine ⟨1, ?_, zero_le_one, le_refl 1⟩
        simp [RelevanceScore.new, FP.maxR, FP.minR, FP.ltB, h0, h1]
      · refine ⟨q, ?_, not_lt.mp h0, not_lt.mp h1⟩
        simp [RelevanceScore.new, FP.maxR, FP.minR, FP.ltB, h0, h1]

/-- The combined score of `calculate_tf_idf` is always the image of the
`RelevanceScore::new` clamp. -/
theorem calculateTfIdf_eq_new (lnq : ℚ → ℚ) (now : Int) (scorer : TfIdfScorer)
    (memory : Memory) (mode : String) (query : Option String)
    (document_frequencies : String → Nat) (total_documents : Nat) :
    ∃ s, calculateTfIdf lnq now scorer memory mode query document_frequencies
      total_documents = RelevanceScore.new s :=
  ⟨_, rfl⟩

/-- C4: for every input to `TfIdfScorer::score_memories` (any memory
list, any mode, any optional query, including an empty list and a query
matching nothing), every relevance score in the output is never NaN and
lies in the closed interval from 0 to 1. -/
theorem score_memories_bounded (lnq : ℚ → ℚ) (now : Int) (scorer : TfIdfScorer)
    (memories : List Memory) (mode : String) (query : Option String)
    (sm : ScoredMemory)
    (hmem : sm ∈ scoreMemories lnq now scorer memories mode query) :
    sm.score.val ≠ FP.nan ∧ ∃ q : ℚ, sm.score.val = FP.fin q ∧ 0 ≤ q ∧ q ≤ 1 := by
  simp only [scoreMemories, List.mem_mergeSort] at hmem
  rcases List.mem_map.mp hmem with ⟨m, hm, heq⟩
  subst heq
  obtain ⟨s, hs⟩ := calculateTfIdf_eq_new lnq now scorer m mode query
    (buildDocumentFrequencies memories) memories.length
  obtain ⟨q, hq, h0, h1⟩ := relevanceScore_new_fin_bounds s
  refine ⟨?_, q, ?_, h0, h1⟩
  · show (calculateTfIdf lnq now scorer m mode query
      (buildDocumentFrequencies memories) memories.length).val ≠ FP.nan
    rw [hs, hq]
    simp
  · show (calculateTfIdf lnq now scorer m mode query
      (buildDocumentFrequencies memories) memories.length).val = FP.fin q
    rw [hs, hq]

/-- The abstract logarithm used by concrete witnesses. -/
def zeroLog : ℚ → ℚ := fun _ => 0

/-- The scored memory produced by the witness run of `score_memories` on
the singleton corpus. -/
def witnessScored : ScoredMemory :=
  ⟨sampleMemory,
   calculateTfIdf zeroLog 0 TfIdfScorer.new sampleMemory "code" none
     (buildDocumentFrequencies [sampleMemory]) 1⟩

/-- Witness for C4: the score produced on a concrete singleton corpus
without a query is finite and within bounds. -/
theorem score_memories_bounded_witness :
    witnessScored.score.val ≠ FP.nan ∧
    ∃ q : ℚ, witnessScored.score.val = FP.fin q ∧ 0 ≤ q ∧ q ≤ 1 :=
  score_memories_bounded zeroLog 0 TfIdfScorer.new [sampleMemory] "code" none
    witnessScored
    (by
      simp only [scoreMemories, List.mem_mergeSort]
      exact List.mem_map.mpr ⟨sampleMemory, List.mem_singleton.mpr rfl, rfl⟩)

/-- The weight table the spec prescribes for a mode: the table of the
mode itself, the code table for a mode with no table of its own. -/
def specWeightTable (mode : String) : List (String × ℚ) :=
  if mode = "architect" then architectWeights
  else if mode = "debug" then debugWeights
  else codeWeights

/-- Metadata score exactly as worded by the spec: for every metadata key
present on the memory, its weight in the weight table (0.1 when absent),
summed and divided by the number of entries in the weight table. -/
def specMetadataScore (mode : String) (metadata : List (String × String)) : ℚ :=
  ((metadata.map fun kv => (lookupA kv.1 (specWeightTable mode)).getD (1/10)).sum) /
    (((specWeightTable mode).length : Nat) : ℚ)

/-- C5: for every memory metadata map and every mode, the metadata score
computed by the scorer equals the spec formula: the sum over the present
metadata keys of the table weight (default 0.1), divided by the size of
the weight table, with an unrecognized mode falling back to the code
table. -/
theorem metadata_score_matches_spec (mode : String)
    (metadata : List (String × String)) :
    metadataScore TfIdfScorer.new mode metadata = specMetadataScore mode metadata := by
  by_cases hc : mode = "code"
  · subst hc
    simp [metadataScore, specMetadataScore, specWeightTable, TfIdfScorer.new, lookupA]
    norm_num [codeWeights]
  · by_cases ha : mode = "architect"
    · subst ha
      simp [metadataScore, specMetadataScore, specWeightTable, TfIdfScorer.new, lookupA]
      norm_num [architectWeights]
    · by_cases hd : mode = "debug"
      · subst hd
        simp [metadataScore, specMetadataScore, specWeightTable, TfIdfScorer.new, lookupA]
        norm_num [debugWeights]
      · simp [metadataScore, specMetadataScore, specWeightTable, TfIdfScorer.new,
          lookupA, hc, ha, hd]
        norm_num [codeWeights]

end SmartMemory
